import Mathlib

/-!
Verification of the dual-store shopping-cart core of `labora-backend`.

The embedding below models, directly from the TypeScript source:
* the Redis-side cart hash for one user (`src/routes/cart.ts`): an
  association list from product id to the numeric value stored in the hash
  field (Redis stores decimal strings; every string written by this code is
  `Number.prototype.toString` of a finite JS number, so we represent the
  stored value exactly as a rational),
* the per-key TTL, the user's membership in the `dirtyCarts` set, and the
  durable (Postgres) rows touched by the cart routes,
* the request handlers `POST /add`, `GET /`, `PUT /update`,
  `DELETE /clear`, `POST /update-bulk`, `POST /checkout`,
* the sync job `syncCartToPostgres` / `startCartSyncJob`
  (`src/jobs/cartSync.ts`) and the helper `parseCart`
  (`src/utils/cart.ts`).

Request bodies are parsed JSON, so a `quantity` value is modelled as
missing (`undefined` after destructuring), `null`, or a finite number;
JSON cannot produce `NaN`, and non-number JSON values (strings, booleans,
objects) are outside the modelled input space.

Cache-store connectivity failures are modelled by an optional fault index:
the n-th Redis/Postgres call of a handler raises, the preceding calls
remain applied (Redis has no rollback), and the handler's catch block
answers with the 500 error path of `handleRedisError`.
-/

set_option maxRecDepth 2000

namespace LaboraCart

/-- `cart:{userId}` hash TTL from `src/routes/cart.ts`: 24 hours. -/
def CART_TTL : Nat := 60 * 60 * 24

/-- Association-list lookup by key; models `Record` access, `HGET`, and
unique-key SQL lookups. -/
def alookup {β : Type} : List (String × β) → String → Option β
  | [], _ => none
  | e :: t, p => if e.1 = p then some e.2 else alookup t p

/-- Replace the value at a key, or append the binding if the key is absent;
models `HSET` on a Redis hash and SQL upsert on a unique key. -/
def aset {β : Type} : List (String × β) → String → β → List (String × β)
  | [], p, v => [(p, v)]
  | e :: t, p, v => if e.1 = p then (p, v) :: t else e :: aset t p v

/-- Remove every binding of a key; models `HDEL`. -/
def adel {β : Type} : List (String × β) → String → List (String × β)
  | [], _ => []
  | e :: t, p => if e.1 = p then adel t p else e :: adel t p

/-- The Redis cart hash of one user: product id ↦ stored numeric value. -/
abbrev Cart := List (String × Rat)

/-- `parseInt(value, 10)` truncates a decimal numeral toward zero; on the
values this code stores (nonnegative numbers) that is `num.tdiv den`. -/
def ratTrunc (q : Rat) : Int := Int.tdiv q.num (q.den : Int)

/-- `parseCart` from `src/utils/cart.ts`: convert every stored hash value
(a decimal string in Redis) to an integer with `parseInt(value, 10)`. -/
def parseCart (c : Cart) : List (String × Int) :=
  c.map (fun e => (e.1, ratTrunc e.2))

/-- A JSON value destructured from `req.body` in a position where the
handlers inspect it: missing key, `null`, or a finite number. -/
inductive JSVal where
  | undef : JSVal
  | null : JSVal
  | num : Rat → JSVal
deriving DecidableEq

/-- `typeof quantity === "number"`. -/
def JSVal.isNumber : JSVal → Bool
  | .num _ => true
  | _ => false

/-- `quantity == null` (loose equality: matches both `null` and `undefined`). -/
def JSVal.isNullish : JSVal → Bool
  | .undef => true
  | .null => true
  | .num _ => false

/-- `quantity <= 0` evaluated on a number (the handlers only reach this
comparison after a `typeof` check or a nullish check). -/
def JSVal.jsLe0 : JSVal → Bool
  | .num q => decide (q ≤ 0)
  | _ => false

/-- `quantity > 0` as evaluated by JS on the modelled values:
`undefined > 0` and `null > 0` are both `false`. -/
def JSVal.jsGt0 : JSVal → Bool
  | .num q => decide (0 < q)
  | _ => false

/-- The numeric payload of a number value (only read on number branches). -/
def JSVal.toRat : JSVal → Rat
  | .num q => q
  | _ => 0

/-- The state the cart routes can observe and mutate for one user:
the Redis hash (`cart:{userId}`), its TTL (present iff the key exists),
membership of the user in the `dirtyCarts` set, and the user's durable
`carts` row with its `cart_items` (product id ↦ quantity), `none` when no
row exists. -/
structure UserState where
  cart : Cart
  ttl : Option Nat
  dirtyMe : Bool
  pgCart : Option (List (String × Int))
deriving DecidableEq

/-- One command queued on the `redis.multi()` pipeline of
`POST /update-bulk` (and of the `GET /` restore path). -/
inductive PipeCmd where
  | pset : String → Rat → PipeCmd
  | pdel : String → PipeCmd
deriving DecidableEq

/-- Apply one pipeline command to the hash. Deleting the last field of a
Redis hash deletes the key, and with it the TTL. -/
def applyPipeCmd (st : UserState) : PipeCmd → UserState
  | .pset p v => { st with cart := aset st.cart p v }
  | .pdel p =>
      let c := adel st.cart p
      { st with cart := c, ttl := if c.isEmpty then none else st.ttl }

/-- One store call issued by a cart handler, in program order. -/
inductive Op where
  | hIncrBy : String → Rat → Op
  | hSet : String → Rat → Op
  | hDel : String → Op
  | pipe : List PipeCmd → Op
  | expire : Op
  | sAdd : Op
  | delKey : Op
  | pgDelCart : Op
deriving DecidableEq

/-- Apply one store call. `HINCRBY` is the only call the store itself can
reject: Redis requires both the increment and the current field value to be
integers, and rejects the command without mutating the hash. `EXPIRE` on an
absent key (empty hash) is a no-op. -/
def applyOp (st : UserState) : Op → Option UserState
  | .hIncrBy p d =>
      let cur := (alookup st.cart p).getD 0
      if d.den = 1 ∧ cur.den = 1 then
        some { st with cart := aset st.cart p (cur + d) }
      else
        none
  | .hSet p v => some { st with cart := aset st.cart p v }
  | .hDel p => some (applyPipeCmd st (.pdel p))
  | .pipe cmds => some (cmds.foldl applyPipeCmd st)
  | .expire => some (if st.cart.isEmpty then st else { st with ttl := some CART_TTL })
  | .sAdd => some { st with dirtyMe := true }
  | .delKey => some { st with cart := [], ttl := none }
  | .pgDelCart => some { st with pgCart := none }

/-- Run the handler's store calls in order. `fault = some k` injects a
connectivity failure at the k-th call: the calls before it stay applied,
the failing call does not mutate anything, and the handler's `catch`
takes over (`false` in the first component). -/
def runOps : List Op → Option Nat → UserState → Bool × UserState
  | [], _, st => (true, st)
  | op :: rest, fault, st =>
    if fault = some 0 then (false, st)
    else
      match applyOp st op with
      | none => (false, st)
      | some st' => runOps rest (fault.map (fun k => k - 1)) st'

/-- Outcome of a mutating cart handler, keyed by HTTP response:
`ok` = 200 with a success message, `invalidInput` = 400 from input
validation, `storeError` = 500 from `handleRedisError`. -/
inductive HandlerResult where
  | ok : HandlerResult
  | invalidInput : HandlerResult
  | storeError : HandlerResult
deriving DecidableEq

/-- `POST /add` (`router.post("/add", ...)` in `src/routes/cart.ts`):
validate `productId` truthy and `quantity` a number `> 0`, then
`HINCRBY`, `EXPIRE`, `SADD dirtyCarts`. -/
def addItem (productId : String) (quantity : JSVal) (fault : Option Nat)
    (st : UserState) : HandlerResult × UserState :=
  if productId = "" || !quantity.isNumber || quantity.jsLe0 then
    (.invalidInput, st)
  else
    let r := runOps [.hIncrBy productId quantity.toRat, .expire, .sAdd] fault st
    if r.1 then (.ok, r.2) else (.storeError, r.2)

/-- `PUT /update`: validate `productId` truthy and `quantity` either
nullish or a number; `quantity == null || quantity <= 0` deletes the
field, otherwise `HSET`; then `EXPIRE`, `SADD dirtyCarts`. -/
def updateItem (productId : String) (quantity : JSVal) (fault : Option Nat)
    (st : UserState) : HandlerResult × UserState :=
  if productId = "" then (.invalidInput, st)
  else if !quantity.isNullish && !quantity.isNumber then (.invalidInput, st)
  else
    let op : Op :=
      if quantity.isNullish || quantity.jsLe0 then .hDel productId
      else .hSet productId quantity.toRat
    let r := runOps [op, .expire, .sAdd] fault st
    if r.1 then (.ok, r.2) else (.storeError, r.2)

/-- `POST /update-bulk`: queue `HSET` for items with `quantity > 0` and
`HDEL` for all other items on one pipeline, `exec` it, then `EXPIRE`,
`SADD dirtyCarts`. No per-item validation. -/
def bulkUpdate (items : List (String × JSVal)) (fault : Option Nat)
    (st : UserState) : HandlerResult × UserState :=
  let cmds := items.map (fun it =>
    if it.2.jsGt0 then PipeCmd.pset it.1 it.2.toRat else PipeCmd.pdel it.1)
  let r := runOps [.pipe cmds, .expire, .sAdd] fault st
  if r.1 then (.ok, r.2) else (.storeError, r.2)

/-- `DELETE /clear`: `DEL` the Redis key, delete the durable `carts` row
(cascading to `cart_items`), `SADD dirtyCarts`. -/
def clearCart (fault : Option Nat) (st : UserState) : HandlerResult × UserState :=
  let r := runOps [.delKey, .pgDelCart, .sAdd] fault st
  if r.1 then (.ok, r.2) else (.storeError, r.2)

/-- The join `cart_items ⋈ carts` on `user_id` used by `GET /`:
no `carts` row means no item rows. -/
def getCartRows (st : UserState) : List (String × Int) :=
  match st.pgCart with
  | some items => items
  | none => []

/-- `GET /` (fault-free path): `HGETALL`; when the hash is empty, query
the durable rows; when rows exist, restore them to Redis field-by-field
with `HSET` plus one `EXPIRE` on a pipeline and return them; when none
exist, return `{}`; when the hash is non-empty, return `parseCart` of it.
The restore never touches `dirtyCarts`. -/
def getCart (st : UserState) : List (String × Int) × UserState :=
  if st.cart.isEmpty then
    let rows := getCartRows st
    if rows.isEmpty then ([], st)
    else
      let newCart := rows.foldl (fun c e => aset c e.1 ((e.2 : Int) : Rat)) st.cart
      (rows, { st with cart := newCart, ttl := some CART_TTL })
  else (parseCart st.cart, st)

/-- Durable-store state and result of `POST /checkout`, for one user.
`orders` holds `(order id, total_amount)` pairs; `orderItems` holds
`(order id, product id, quantity, price)` rows. -/
structure CheckoutState where
  cart : Cart
  ttl : Option Nat
  pgCart : Option (List (String × Int))
  orders : List (Nat × Rat)
  orderItems : List (Nat × String × Int × Rat)
deriving DecidableEq

/-- Outcome of `POST /checkout`: `ok orderId` = 200 with the new order id;
`emptyCart` = 400 `"Cart is empty"`; `productNotFound` = the
`"One or more products in the cart not found."` error thrown before any
insert, answered as 500 `"Checkout failed"` after `ROLLBACK`. -/
inductive CheckoutResult where
  | ok : Nat → CheckoutResult
  | emptyCart : CheckoutResult
  | productNotFound : CheckoutResult
deriving DecidableEq

/-- `prices[productId]` from the record built out of the price query rows
(present for every id that survives the length check). -/
def priceOf (prices : List (String × Rat)) (p : String) : Rat :=
  (alookup prices p).getD 0

/-- `POST /checkout` (fault-free stores): read and parse the Redis cart;
400 when empty; inside one transaction fetch
`SELECT id, price FROM products WHERE id = ANY(productIds)` (modelled for
the distinct keys of a Redis hash: one row per cart product id present in
the catalog `prices`), throw when a row is missing (rolled back, nothing
visible), else insert one `orders` row with
`total = Σ prices[p] * quantity` and one `order_items` row per cart entry,
commit, then `DEL` the Redis key and delete the durable `carts` row. -/
def checkout (prices : List (String × Rat)) (oid : Nat) (st : CheckoutState) :
    CheckoutResult × CheckoutState :=
  let cart := parseCart st.cart
  if cart.isEmpty then (.emptyCart, st)
  else
    let productIds := cart.map Prod.fst
    let priceRows := productIds.filterMap (fun p => (alookup prices p).map (fun pr => (p, pr)))
    if priceRows.length ≠ productIds.length then (.productNotFound, st)
    else
      let totalAmount := cart.foldl (fun acc e => acc + priceOf prices e.1 * (e.2 : Rat)) 0
      let newItems := cart.map (fun e => (oid, e.1, e.2, priceOf prices e.1))
      (.ok oid,
        { cart := [], ttl := none, pgCart := none,
          orders := st.orders ++ [(oid, totalAmount)],
          orderItems := st.orderItems ++ newItems })

/-- One durable `carts` row: `updated_at`, `last_synced_at`, and the
`cart_items` rows it owns. -/
structure CartRow where
  updatedAt : Nat
  lastSyncedAt : Nat
  items : List (String × Int)
deriving DecidableEq

/-- State seen by the sync job: every user's Redis cart hash, the
`dirtyCarts` set, and the durable `carts` table keyed by `user_id`. -/
structure SyncState where
  redisCarts : List (String × Cart)
  dirty : List String
  db : List (String × CartRow)
deriving DecidableEq

/-- `syncCartToPostgres` from `src/jobs/cartSync.ts`: return immediately
when the parsed cart is empty; otherwise, in one transaction, upsert the
`carts` row (refreshing both timestamps to `NOW()`), delete the old
`cart_items`, insert the current items, commit. A transaction failure
(`txFails`) is rolled back and the error is caught and only logged —
nothing escapes to the caller. -/
def syncCartToPostgres (now : Nat) (txFails : Bool) (userId : String)
    (cart : List (String × Int)) (db : List (String × CartRow)) :
    List (String × CartRow) :=
  if cart.isEmpty then db
  else if txFails then db
  else aset db userId ⟨now, now, cart⟩

/-- `SREM dirtyCarts userId`. -/
def sRem (s : List String) (u : String) : List String :=
  s.filter (fun v => v != u)

/-- Loop body of the cron callback in `startCartSyncJob`: `HGETALL` the
user's cart, `parseCart` it, `syncCartToPostgres`, then unconditionally
`SREM` the user from `dirtyCarts` (any sync error was already swallowed
inside `syncCartToPostgres`). -/
def cartSyncStep (now : Nat) (txFails : String → Bool) (st : SyncState)
    (userId : String) : SyncState :=
  let cartRaw := (alookup st.redisCarts userId).getD []
  let cart := parseCart cartRaw
  { st with
    db := syncCartToPostgres now (txFails userId) userId cart st.db,
    dirty := sRem st.dirty userId }

/-- One run of the cron callback: `SMEMBERS dirtyCarts` once, then the
per-user loop over that snapshot. -/
def cartSyncRun (now : Nat) (txFails : String → Bool) (st : SyncState) : SyncState :=
  st.dirty.foldl (cartSyncStep now txFails) st


/-- The positivity part of the spec's quantity invariant: every value
stored in the cart hash is strictly positive. -/
def posInv (c : Cart) : Prop := ∀ e ∈ c, 0 < e.2

/-- Pipeline commands that only ever write positive values. -/
def cmdPos : PipeCmd → Prop
  | .pset _ v => 0 < v
  | .pdel _ => True

/-- Store calls that only ever write positive values into the hash. -/
def opPos : Op → Prop
  | .hSet _ v => 0 < v
  | .hIncrBy _ d => 0 < d
  | .pipe cmds => ∀ cmd ∈ cmds, cmdPos cmd
  | _ => True

/-! ### Association-list lemmas -/

theorem alookup_aset_self {β : Type} (l : List (String × β)) (p : String) (v : β) :
    alookup (aset l p v) p = some v := by
  induction l with
  | nil => simp [aset, alookup]
  | cons e t ih =>
    by_cases h : e.1 = p
    · simp [aset, h, alookup]
    · simp [aset, h, alookup, ih]

theorem alookup_aset_ne {β : Type} (l : List (String × β)) (p p' : String) (v : β)
    (h : p' ≠ p) : alookup (aset l p v) p' = alookup l p' := by
  have h2 : ¬ (p = p') := fun hc => h hc.symm
  induction l with
  | nil => simp [aset, alookup, h2]
  | cons e t ih =>
    by_cases he : e.1 = p
    · subst he
      simp [aset, alookup, h2]
    · simp only [aset, he, if_false, alookup]
      by_cases he' : e.1 = p'
      · simp [he']
      · simp [he', ih]

theorem mem_aset {β : Type} (l : List (String × β)) (p : String) (v : β)
    (e : String × β) (h : e ∈ aset l p v) : e = (p, v) ∨ e ∈ l := by
  induction l with
  | nil => simpa [aset] using h
  | cons f t ih =>
    by_cases hf : f.1 = p
    · simp only [aset, hf, if_true, List.mem_cons] at h
      rcases h with h | h
      · exact Or.inl h
      · exact Or.inr (List.mem_cons_of_mem _ h)
    · simp only [aset, hf, if_false, List.mem_cons] at h
      rcases h with h | h
      · exact Or.inr (by simp [h])
      · rcases ih h with h' | h'
        · exact Or.inl h'
        · exact Or.inr (List.mem_cons_of_mem _ h')

theorem aset_ne_nil {β : Type} (l : List (String × β)) (p : String) (v : β) :
    aset l p v ≠ [] := by
  cases l with
  | nil => simp [aset]
  | cons e t =>
    by_cases h : e.1 = p <;> simp [aset, h]

theorem aset_of_alookup_none {β : Type} (l : List (String × β)) (p : String) (v : β)
    (h : alookup l p = none) : aset l p v = l ++ [(p, v)] := by
  induction l with
  | nil => simp [aset]
  | cons e t ih =>
    by_cases he : e.1 = p
    · simp [alookup, he] at h
    · simp only [alookup, he, if_false] at h
      simp [aset, he, ih h]

theorem alookup_adel_self {β : Type} (l : List (String × β)) (p : String) :
    alookup (adel l p) p = none := by
  induction l with
  | nil => simp [adel, alookup]
  | cons e t ih =>
    by_cases he : e.1 = p
    · simp [adel, he, ih]
    · simp [adel, he, alookup, ih]

theorem alookup_adel_ne {β : Type} (l : List (String × β)) (p p' : String)
    (h : p' ≠ p) : alookup (adel l p) p' = alookup l p' := by
  have h2 : ¬ (p = p') := fun hc => h hc.symm
  induction l with
  | nil => simp [adel]
  | cons e t ih =>
    by_cases he : e.1 = p
    · subst he
      simp [adel, alookup, h2, ih]
    · simp only [adel, he, if_false, alookup]
      by_cases he' : e.1 = p'
      · simp [he']
      · simp [he', ih]

theorem mem_adel {β : Type} (l : List (String × β)) (p : String)
    (e : String × β) (h : e ∈ adel l p) : e ∈ l := by
  induction l with
  | nil => simp [adel] at h
  | cons f t ih =>
    by_cases hf : f.1 = p
    · simp only [adel, hf, if_true] at h
      exact List.mem_cons_of_mem _ (ih h)
    · simp only [adel, hf, if_false, List.mem_cons] at h
      rcases h with h | h
      · simp [h]
      · exact List.mem_cons_of_mem _ (ih h)

theorem adel_idem {β : Type} (l : List (String × β)) (p : String) :
    adel (adel l p) p = adel l p := by
  induction l with
  | nil => simp [adel]
  | cons e t ih =>
    by_cases he : e.1 = p
    · simp [adel, he, ih]
    · simp [adel, he, ih]

theorem mem_of_alookup_eq_some {β : Type} (l : List (String × β)) (p : String)
    (v : β) (h : alookup l p = some v) : (p, v) ∈ l := by
  induction l with
  | nil => simp [alookup] at h
  | cons e t ih =>
    by_cases he : e.1 = p
    · simp only [alookup, he, if_true, Option.some.injEq] at h
      subst he
      simp [← h]
    · simp only [alookup, he, if_false] at h
      exact List.mem_cons_of_mem _ (ih h)

theorem alookup_append_of_none {β : Type} (c d : List (String × β)) (p : String)
    (h : alookup c p = none) : alookup (c ++ d) p = alookup d p := by
  induction c with
  | nil => simp
  | cons e t ih =>
    by_cases he : e.1 = p
    · simp [alookup, he] at h
    · simp only [alookup, he, if_false] at h
      simpa [alookup, he] using ih h

theorem aset_isEmpty_false {β : Type} (l : List (String × β)) (p : String) (v : β) :
    (aset l p v).isEmpty = false :=
  List.isEmpty_eq_false.mpr (aset_ne_nil l p v)

theorem ratTrunc_intCast (n : Int) : ratTrunc ((n : Int) : Rat) = n := by
  simp [ratTrunc]

theorem parseCart_map_fst (c : Cart) :
    (parseCart c).map Prod.fst = c.map Prod.fst := by
  simp [parseCart]

theorem parseCart_eq_nil_iff (c : Cart) : parseCart c = [] ↔ c = [] := by
  simp [parseCart]

theorem foldl_add_eq_sum {α : Type} (l : List α) (f : α → Rat) (a : Rat) :
    l.foldl (fun acc e => acc + f e) a = a + (l.map f).sum := by
  induction l generalizing a with
  | nil => simp
  | cons e t ih => simp [ih, add_assoc]

theorem length_filterMap_alookup {β : Type} (prices : List (String × β))
    (ids : List String) (h : ∀ p ∈ ids, (alookup prices p).isSome) :
    (ids.filterMap
      (fun p => (alookup prices p).map (fun pr => (p, pr)))).length = ids.length := by
  induction ids with
  | nil => simp
  | cons p t ih =>
    have hp := h p (by simp)
    cases hmem : alookup prices p with
    | none => rw [hmem] at hp; simp at hp
    | some pr =>
      simp [List.filterMap_cons, hmem, ih (fun x hx => h x (by simp [hx]))]

theorem length_filterMap_alookup_lt {β : Type} (prices : List (String × β))
    (ids : List String) (p0 : String) (hmem : p0 ∈ ids)
    (hnone : alookup prices p0 = none) :
    (ids.filterMap
      (fun p => (alookup prices p).map (fun pr => (p, pr)))).length < ids.length := by
  induction ids with
  | nil => simp at hmem
  | cons p t ih =>
    rcases List.mem_cons.mp hmem with hp | hp
    · subst hp
      simp only [List.filterMap_cons, hnone, Option.map_none]
      exact Nat.lt_succ_of_le (List.length_filterMap_le _ _)
    · cases hmem2 : alookup prices p with
      | none =>
        simp only [List.filterMap_cons, hmem2, Option.map_none]
        exact Nat.lt_succ_of_lt (ih hp)
      | some pr =>
        simp only [List.filterMap_cons, hmem2, Option.map_some, List.length_cons]
        exact Nat.succ_lt_succ (ih hp)

theorem foldl_aset_restore (M : List (String × Int)) (c : Cart)
    (hnd : (M.map Prod.fst).Nodup)
    (hdisj : ∀ e ∈ M, alookup c e.1 = none) :
    M.foldl (fun c e => aset c e.1 ((e.2 : Int) : Rat)) c
      = c ++ M.map (fun e => (e.1, ((e.2 : Int) : Rat))) := by
  induction M generalizing c with
  | nil => simp
  | cons m t ih =>
    simp only [List.foldl_cons]
    rw [aset_of_alookup_none _ _ _ (hdisj m (by simp))]
    have hm : m.1 ∉ t.map Prod.fst := by
      have := hnd
      simp only [List.map_cons, List.nodup_cons] at this
      exact this.1
    have hnd' : (t.map Prod.fst).Nodup := by
      simp only [List.map_cons, List.nodup_cons] at hnd
      exact hnd.2
    rw [ih (c ++ [(m.1, ((m.2 : Int) : Rat))]) hnd'
      (fun e he => by
        have h1 : alookup c e.1 = none := hdisj e (List.mem_cons_of_mem _ he)
        have h2 : alookup [(m.1, ((m.2 : Int) : Rat))] e.1 = none := by
          have hne : m.1 ≠ e.1 := fun hc => hm (hc ▸ List.mem_map_of_mem Prod.fst he)
          simp [alookup, hne]
        rw [alookup_append_of_none _ _ _ h1]
        exact h2)]
    simp

/-! ### Run lemmas -/

theorem runOps_fault_zero (op : Op) (rest : List Op) (st : UserState) :
    runOps (op :: rest) (some 0) st = (false, st) := by
  simp [runOps]

theorem runOps_fault_of_lt (ops : List Op) (k : Nat) (st : UserState)
    (h : k < ops.length) : (runOps ops (some k) st).1 = false := by
  induction ops generalizing k st with
  | nil => simp at h
  | cons op rest ih =>
    cases k with
    | zero => simp [runOps]
    | succ n =>
      simp only [runOps, Option.map_some]
      rw [if_neg (by simp)]
      cases hop : applyOp st op with
      | none => rfl
      | some st' =>
        simpa using ih n st' (by simpa using h)

theorem applyPipeCmd_posInv (st : UserState) (cmd : PipeCmd)
    (hc : cmdPos cmd) (h : posInv st.cart) : posInv (applyPipeCmd st cmd).cart := by
  cases cmd with
  | pset p v =>
    intro e he
    rcases mem_aset _ _ _ _ he with rfl | he'
    · exact hc
    · exact h e he'
  | pdel p =>
    intro e he
    exact h e (mem_adel _ _ _ he)

theorem foldl_pipe_posInv (cmds : List PipeCmd) (st : UserState)
    (hc : ∀ cmd ∈ cmds, cmdPos cmd) (h : posInv st.cart) :
    posInv ((cmds.foldl applyPipeCmd st).cart) := by
  induction cmds generalizing st with
  | nil => exact h
  | cons cmd t ih =>
    exact ih (applyPipeCmd st cmd) (fun c hc' => hc c (List.mem_cons_of_mem _ hc'))
      (applyPipeCmd_posInv st cmd (hc cmd (by simp)) h)

theorem applyOp_posInv (st st' : UserState) (op : Op) (hop : opPos op)
    (h : posInv st.cart) (happ : applyOp st op = some st') : posInv st'.cart := by
  cases op with
  | hIncrBy p d =>
    simp only [applyOp] at happ
    split at happ
    · cases happ
      intro e he
      rcases mem_aset _ _ _ _ he with rfl | he'
      · have hcur : (0:Rat) ≤ (alookup st.cart p).getD 0 := by
          cases hl : alookup st.cart p with
          | none => simp
          | some q => simpa using le_of_lt (h (p, q) (mem_of_alookup_eq_some _ _ _ hl))
        exact add_pos_of_nonneg_of_pos hcur hop
      · exact h e he'
    · cases happ
  | hSet p v =>
    cases happ
    intro e he
    rcases mem_aset _ _ _ _ he with rfl | he'
    · exact hop
    · exact h e he'
  | hDel p =>
    cases happ
    intro e he
    exact h e (mem_adel _ _ _ he)
  | pipe cmds =>
    cases happ
    exact foldl_pipe_posInv cmds st hop h
  | expire =>
    cases happ
    split
    · exact h
    · exact h
  | sAdd => cases happ; exact h
  | delKey => cases happ; intro e he; simp at he
  | pgDelCart => cases happ; exact h

theorem runOps_posInv (ops : List Op) (fault : Option Nat) (st : UserState)
    (hops : ∀ op ∈ ops, opPos op) (h : posInv st.cart) :
    posInv ((runOps ops fault st).2).cart := by
  induction ops generalizing fault st with
  | nil => exact h
  | cons op rest ih =>
    simp only [runOps]
    by_cases hf : fault = some 0
    · simpa [hf] using h
    · rw [if_neg hf]
      cases happ : applyOp st op with
      | none => exact h
      | some st' =>
        exact ih _ st' (fun o ho => hops o (List.mem_cons_of_mem _ ho))
          (applyOp_posInv st st' op (hops op (by simp)) h happ)

theorem foldl_aset_posInv (M : List (String × Int)) (c : Cart)
    (hM : ∀ e ∈ M, 0 < e.2) (h : posInv c) :
    posInv (M.foldl (fun c e => aset c e.1 ((e.2 : Int) : Rat)) c) := by
  induction M generalizing c with
  | nil => exact h
  | cons m t ih =>
    simp only [List.foldl_cons]
    refine ih _ (fun e he => hM e (List.mem_cons_of_mem _ he)) ?_
    intro e he
    rcases mem_aset _ _ _ _ he with rfl | he'
    · show (0:Rat) < ((m.2 : Int) : Rat)
      exact_mod_cast hM m (by simp)
    · exact h e he'

theorem applyPipeCmd_ttl (st : UserState) (cmd : PipeCmd)
    (h : st.cart.isEmpty = true → st.ttl = none) :
    (applyPipeCmd st cmd).cart.isEmpty = true → (applyPipeCmd st cmd).ttl = none := by
  cases cmd with
  | pset p v =>
    intro hc
    rw [applyPipeCmd] at hc
    simp [aset_isEmpty_false] at hc
  | pdel p =>
    intro hc
    simp only [applyPipeCmd] at hc ⊢
    simp [hc]

theorem foldl_pipe_ttl (cmds : List PipeCmd) (st : UserState)
    (h : st.cart.isEmpty = true → st.ttl = none) :
    (cmds.foldl applyPipeCmd st).cart.isEmpty = true →
      (cmds.foldl applyPipeCmd st).ttl = none := by
  induction cmds generalizing st with
  | nil => exact h
  | cons cmd t ih => exact ih (applyPipeCmd st cmd) (applyPipeCmd_ttl st cmd h)

theorem foldl_pipe_lookup_none (cmds : List PipeCmd) (st : UserState) (p : String)
    (hnoset : ∀ v, PipeCmd.pset p v ∉ cmds)
    (hdel : PipeCmd.pdel p ∈ cmds ∨ alookup st.cart p = none) :
    alookup (cmds.foldl applyPipeCmd st).cart p = none := by
  induction cmds generalizing st with
  | nil =>
    rcases hdel with h | h
    · simp at h
    · exact h
  | cons cmd t ih =>
    simp only [List.foldl_cons]
    have hnoset' : ∀ v, PipeCmd.pset p v ∉ t :=
      fun v hv => hnoset v (List.mem_cons_of_mem _ hv)
    cases cmd with
    | pset p' v =>
      have hne : p ≠ p' := by
        rintro rfl
        exact hnoset v (by simp)
      refine ih _ hnoset' ?_
      rcases hdel with h | h
      · rcases List.mem_cons.mp h with h' | h'
        · cases h'
        · exact Or.inl h'
      · refine Or.inr ?_
        simp only [applyPipeCmd]
        rw [alookup_aset_ne _ _ _ _ hne]
        exact h
    | pdel p' =>
      by_cases hpp : p' = p
      · subst hpp
        refine ih _ hnoset' (Or.inr ?_)
        simp only [applyPipeCmd]
        exact alookup_adel_self _ _
      · refine ih _ hnoset' ?_
        rcases hdel with h | h
        · rcases List.mem_cons.mp h with h' | h'
          · cases h'; exact absurd rfl hpp
          · exact Or.inl h'
        · refine Or.inr ?_
          simp only [applyPipeCmd]
          rw [alookup_adel_ne _ _ _ (fun hc => hpp hc.symm)]
          exact h

/-! ### Claim theorems -/

/-- C1. The spec claims a user is removed from the dirty set only when the
durable flush for that user committed, and that a user whose flush fails
stays dirty. Evaluating one run of the sync job on dirty users `X` and `Y`,
where `X`'s durable transaction aborts and `Y`'s commits, shows the code
removing BOTH users from the dirty set: `X`'s flush wrote nothing durable
(`db` has no row for `X`), yet `X` is gone from `dirtyCarts`, because
`syncCartToPostgres` swallows the error and the loop calls `SREM`
unconditionally — contradicting the claim and the code's own comment
`remove from dirty set after successful sync`. -/
theorem C1_failed_flush_still_removed_from_dirty :
    (cartSyncRun 7 (fun u => u == "X")
      ⟨[("X", [("a", 1)]), ("Y", [("b", 2)])], ["X", "Y"], []⟩).dirty = [] ∧
    alookup (cartSyncRun 7 (fun u => u == "X")
      ⟨[("X", [("a", 1)]), ("Y", [("b", 2)])], ["X", "Y"], []⟩).db "X" = none ∧
    alookup (cartSyncRun 7 (fun u => u == "X")
      ⟨[("X", [("a", 1)]), ("Y", [("b", 2)])], ["X", "Y"], []⟩).db "Y"
      = some ⟨7, 7, [("b", 2)]⟩ := by
  with_unfolding_all decide

/-- C2 counterexample. The claim says that when a cache-store operation
fails at any point during a mutating call, the cache-side state is left
exactly as before the call. Run `AddItem("a", 1)` on an empty cart with the
second store call (`EXPIRE`) failing: the call reports the 500 store error,
but the hash now contains `a ↦ 1` — the `HINCRBY` that already ran is not
rolled back, so a partial mutation is visible. -/
theorem C2_counterexample :
    (addItem "a" (JSVal.num 1) (some 1) ⟨[], none, false, none⟩).1
      = .storeError ∧
    (addItem "a" (JSVal.num 1) (some 1) ⟨[], none, false, none⟩).2.cart
      = [("a", 1)] := by
  with_unfolding_all decide

/-- C5 counterexample. The claim says that for a dirty user with an empty
cache-side cart the Reconciler still runs the durable transaction, upserting
the cart row and refreshing `updated_at`/`last_synced_at`. Run the job at
time 99 for dirty user `u` whose Redis cart is absent and whose durable row
has both timestamps at 5: the durable table is completely unchanged (the
timestamps stay 5, no upsert happened, `syncCartToPostgres` returned at its
empty-cart guard), while `u` is still removed from the dirty set. -/
theorem C5_counterexample :
    (cartSyncRun 99 (fun _ => false)
      ⟨[], ["u"], [("u", ⟨5, 5, [("a", 1)]⟩)]⟩).db
      = [("u", ⟨5, 5, [("a", 1)]⟩)] ∧
    (cartSyncRun 99 (fun _ => false)
      ⟨[], ["u"], [("u", ⟨5, 5, [("a", 1)]⟩)]⟩).dirty = [] := by
  refine ⟨?_, ?_⟩ <;> with_unfolding_all decide

/-- C7 counterexample. The claim says a stored quantity is always a
positive integer and a non-integer quantity is never reachable. But
`UpdateItem("a", 2.5)` passes the route's validation (`2.5` is a number and
not `≤ 0`), and `HSET` stores `2.5` — a non-integer — in the cart hash. -/
theorem C7_counterexample :
    alookup (updateItem "a" (JSVal.num (mkRat 5 2)) none
      ⟨[], none, false, none⟩).2.cart "a" = some (mkRat 5 2) ∧
    (mkRat 5 2).den ≠ 1 := by
  refine ⟨?_, ?_⟩ <;> with_unfolding_all decide

/-- C9 counterexample. The claim says that whenever `p` is present and `q`
is a number `> 0`, `AddItem(u, p, q)` increments the stored quantity by
`q`. For `q = 2.5` the input validation passes (`typeof 2.5 === "number"`
and `2.5 > 0`), but Redis rejects `HINCRBY` with a non-integer increment:
the call returns the 500 store error and the cart is not changed — nothing
was incremented. -/
theorem C9_counterexample :
    (addItem "a" (JSVal.num (mkRat 5 2)) none ⟨[], none, false, none⟩)
      = (.storeError, ⟨[], none, false, none⟩) := by
  with_unfolding_all decide

/-- C5 (amended). For a dirty user whose cache-side cart parses to an
empty item set at flush time, `syncCartToPostgres` returns at its
empty-cart guard before opening any transaction: the durable store is left
completely unchanged (no upsert, no `updated_at`/`last_synced_at`
refresh), and the user is nevertheless removed from the dirty set by the
unconditional `SREM` in the job loop. -/
theorem C5_empty_cart_skips_durable_write (now : Nat) (f : String → Bool)
    (st : SyncState) (u : String)
    (h : (parseCart ((alookup st.redisCarts u).getD [])).isEmpty = true) :
    (cartSyncStep now f st u).db = st.db ∧
    u ∉ (cartSyncStep now f st u).dirty := by
  constructor
  · simp [cartSyncStep, syncCartToPostgres, h]
  · simp [cartSyncStep, sRem, List.mem_filter]

/-- C5 witness: the amended theorem applied to dirty user `u` with an
absent Redis cart and a stale durable row. -/
theorem C5_empty_cart_skips_durable_write_witness :
    (cartSyncStep 99 (fun _ => false)
      ⟨[], ["u"], [("u", ⟨5, 5, [("a", 1)]⟩)]⟩ "u").db
      = [("u", ⟨5, 5, [("a", 1)]⟩)] ∧
    "u" ∉ (cartSyncStep 99 (fun _ => false)
      ⟨[], ["u"], [("u", ⟨5, 5, [("a", 1)]⟩)]⟩ "u").dirty :=
  C5_empty_cart_skips_durable_write 99 (fun _ => false)
    ⟨[], ["u"], [("u", ⟨5, 5, [("a", 1)]⟩)]⟩ "u" (by decide)

/-- C8. `UpdateItem(u, p, 0)` is idempotent on the whole per-user state,
and afterwards the item `p` is absent from the cart: quantity `0` takes
the `quantity <= 0` branch, so the call is `HDEL p; EXPIRE; SADD` —
`HDEL` removes every binding of `p`, deleting an already-deleted field
changes nothing, the TTL refresh yields the same TTL, and the dirty flag
is already set, so running the call twice equals running it once and `p`
is gone. The absence conjunct assumes a truthy product id: a falsy `p` is
rejected as `InvalidInput` before any store access, so no call executes
and nothing is removed. -/
theorem C8_update_zero_idempotent (p : String) (st : UserState) :
    (updateItem p (JSVal.num 0) none
      ((updateItem p (JSVal.num 0) none st).2)).2
      = (updateItem p (JSVal.num 0) none st).2 ∧
    (p ≠ "" →
      alookup (updateItem p (JSVal.num 0) none st).2.cart p = none) := by
  constructor
  · by_cases hp : p = ""
    · simp [updateItem, hp]
    · by_cases hc : (adel st.cart p).isEmpty
      · simp [updateItem, hp, runOps, applyOp, applyPipeCmd, JSVal.isNullish,
          JSVal.jsLe0, JSVal.isNumber, adel_idem, hc]
      · simp [updateItem, hp, runOps, applyOp, applyPipeCmd, JSVal.isNullish,
          JSVal.jsLe0, JSVal.isNumber, adel_idem, hc]
  · intro hp
    by_cases hc : (adel st.cart p).isEmpty
    · simp [updateItem, hp, runOps, applyOp, applyPipeCmd, JSVal.isNullish,
        JSVal.jsLe0, JSVal.isNumber, hc, alookup_adel_self]
    · simp [updateItem, hp, runOps, applyOp, applyPipeCmd, JSVal.isNullish,
        JSVal.jsLe0, JSVal.isNumber, hc, alookup_adel_self]

/-- C8 witness: `UpdateItem("a", 0)` on a cart holding `a ↦ 2` — the
second call leaves the state of the first call unchanged, and `a` is
absent after the first call. -/
theorem C8_update_zero_idempotent_witness :
    (updateItem "a" (JSVal.num 0) none
      ((updateItem "a" (JSVal.num 0) none
        ⟨[("a", 2)], some 7, false, none⟩).2)).2
      = (updateItem "a" (JSVal.num 0) none
          ⟨[("a", 2)], some 7, false, none⟩).2 ∧
    alookup (updateItem "a" (JSVal.num 0) none
      ⟨[("a", 2)], some 7, false, none⟩).2.cart "a" = none :=
  ⟨(C8_update_zero_idempotent "a" ⟨[("a", 2)], some 7, false, none⟩).1,
   (C8_update_zero_idempotent "a" ⟨[("a", 2)], some 7, false, none⟩).2
     (by decide)⟩

/-- C3. A successful checkout with a non-empty cart, all of whose product
ids resolve to a catalog price, appends exactly one order row whose total
is the sum over the parsed cart of `price × quantity` with the freshly
fetched prices, appends exactly one order-item row per cart entry
snapshotting quantity and unit price, and leaves no cart in either store:
the Redis key is deleted (hash empty, TTL gone) and the durable `carts`
row is deleted. -/
theorem C3_checkout_success (prices : List (String × Rat)) (oid : Nat)
    (st : CheckoutState) (hne : st.cart ≠ [])
    (hall : ∀ p ∈ st.cart.map Prod.fst, (alookup prices p).isSome) :
    checkout prices oid st
      = (.ok oid,
         { cart := [], ttl := none, pgCart := none,
           orders := st.orders ++
             [(oid, ((parseCart st.cart).map
                 (fun e => priceOf prices e.1 * (e.2 : Rat))).sum)],
           orderItems := st.orderItems ++
             (parseCart st.cart).map
               (fun e => (oid, e.1, e.2, priceOf prices e.1)) }) := by
  have hids : (parseCart st.cart).map Prod.fst = st.cart.map Prod.fst :=
    parseCart_map_fst st.cart
  have hne' : (parseCart st.cart).isEmpty = false :=
    List.isEmpty_eq_false.mpr (fun hnil => hne ((parseCart_eq_nil_iff st.cart).mp hnil))
  have hlen :
      (((parseCart st.cart).map Prod.fst).filterMap
        (fun p => (alookup prices p).map (fun pr => (p, pr)))).length
        = ((parseCart st.cart).map Prod.fst).length := by
    apply length_filterMap_alookup
    intro p hp
    exact hall p (hids ▸ hp)
  simp only [checkout, hne', Bool.false_eq_true, if_false, hlen, ne_eq,
    not_true_eq_false, if_neg, reduceIte]
  rw [foldl_add_eq_sum (parseCart st.cart)
    (fun e => priceOf prices e.1 * (e.2 : Rat)) 0]
  simp

/-- C3 witness: the spec's own example — cart `{A: 3}` priced at `3.99`
yields one order with total `11.97`, one order-item row `("A", 3, 3.99)`,
and both stores end up without a cart. -/
theorem C3_checkout_success_witness :
    checkout [("A", mkRat 399 100)] 1
      ⟨[("A", 3)], some 5, some [("A", 3)], [], []⟩
      = (.ok 1, ⟨[], none, none, [(1, mkRat 1197 100)],
          [(1, "A", 3, mkRat 399 100)]⟩) := by
  rw [C3_checkout_success [("A", mkRat 399 100)] 1
    ⟨[("A", 3)], some 5, some [("A", 3)], [], []⟩ (by decide) (by decide)]
  refine Prod.ext rfl ?_
  with_unfolding_all decide

/-- C4. A checkout whose non-empty cart references a product id that no
longer resolves to a catalog price throws before any insert: the thrown
error is the distinct product-not-found path (line 212 of
`src/routes/cart.ts`), the transaction is rolled back so no order or
order-item row becomes visible, and the cache-side cart is untouched. -/
theorem C4_checkout_missing_product (prices : List (String × Rat)) (oid : Nat)
    (st : CheckoutState) (hne : st.cart ≠ []) (p0 : String)
    (hp0 : p0 ∈ st.cart.map Prod.fst)
    (hnone : alookup prices p0 = none) :
    checkout prices oid st = (.productNotFound, st) := by
  have hne' : (parseCart st.cart).isEmpty = false :=
    List.isEmpty_eq_false.mpr (fun hnil => hne ((parseCart_eq_nil_iff st.cart).mp hnil))
  have hlt :
      (((parseCart st.cart).map Prod.fst).filterMap
        (fun p => (alookup prices p).map (fun pr => (p, pr)))).length
        < ((parseCart st.cart).map Prod.fst).length :=
    length_filterMap_alookup_lt prices _ p0 (parseCart_map_fst st.cart ▸ hp0) hnone
  simp only [checkout, hne', Bool.false_eq_true, if_false]
  rw [if_pos (Nat.ne_of_lt hlt)]

/-- C4 witness: product `A` deleted from the catalog between add-to-cart
and checkout — the call fails on the product-not-found path and the state
is exactly unchanged. -/
theorem C4_checkout_missing_product_witness :
    checkout [] 1 ⟨[("A", 3)], some 5, none, [], []⟩
      = (.productNotFound, ⟨[("A", 3)], some 5, none, [], []⟩) :=
  C4_checkout_missing_product [] 1 ⟨[("A", 3)], some 5, none, [], []⟩
    (by decide) "A" (by decide) (by decide)

/-- C6. Fallback-restore round-trip: when the Redis cart is absent and the
durable mirror holds the (key-unique) item rows `M`, `GetCart` returns
exactly `M`, afterwards the Redis cart holds exactly `M` (and parses back
to `M`) with its TTL reset to 24h, and the dirty flag is untouched — the
restore path never calls `SADD dirtyCarts`. When the durable mirror holds
no rows, `GetCart` returns the empty mapping and changes nothing. -/
theorem C6_fallback_restore (st : UserState) (M : List (String × Int))
    (hcart : st.cart = []) (hpg : st.pgCart = some M)
    (hnd : (M.map Prod.fst).Nodup) :
    (M ≠ [] →
      getCart st
        = (M, { st with cart := M.map (fun e => (e.1, ((e.2 : Int) : Rat))),
                        ttl := some CART_TTL }) ∧
      parseCart (getCart st).2.cart = M ∧
      (getCart st).2.dirtyMe = st.dirtyMe) ∧
    (M = [] → getCart st = ([], st)) := by
  constructor
  · intro hM
    have hfold := foldl_aset_restore M st.cart hnd
      (fun e _ => by rw [hcart]; rfl)
    have hrows : getCartRows st = M := by simp [getCartRows, hpg]
    have hMne : M.isEmpty = false := List.isEmpty_eq_false.mpr hM
    have hmain :
        getCart st
          = (M, { st with cart := M.map (fun e => (e.1, ((e.2 : Int) : Rat))),
                          ttl := some CART_TTL }) := by
      simp only [getCart, hcart, List.isEmpty_nil, if_true, hrows, hMne,
        Bool.false_eq_true, if_false, hfold]
      rw [hcart] at hfold
      simp [hfold]
    refine ⟨hmain, ?_, ?_⟩
    · rw [hmain]
      simp only [parseCart, List.map_map]
      have : ∀ e ∈ M, ((fun e => (e.1, ratTrunc e.2)) ∘
          fun e => (e.1, ((e.2 : Int) : Rat))) e = id e := by
        intro e _
        simp [Function.comp, ratTrunc_intCast]
      rw [List.map_congr_left this, List.map_id]
    · rw [hmain]
  · intro hM
    subst hM
    simp [getCart, hcart, getCartRows, hpg]

/-- C6 witness: the spec's example — cache cart deleted, durable mirror
holding `{A: 2, B: 1}` — restored verbatim with TTL reset and the dirty
flag (here `false`) unchanged. -/
theorem C6_fallback_restore_witness :
    getCart ⟨[], some 3, false, some [("A", 2), ("B", 1)]⟩
      = ([("A", 2), ("B", 1)],
         ⟨[("A", 2), ("B", 1)], some CART_TTL, false,
           some [("A", 2), ("B", 1)]⟩) := by
  have h := (C6_fallback_restore ⟨[], some 3, false, some [("A", 2), ("B", 1)]⟩
    [("A", 2), ("B", 1)] rfl rfl (by decide)).1 (by decide)
  rw [h.1]
  refine Prod.ext rfl ?_
  decide

/-- C2 (amended). For every mutating cart call, a cache-store failure is
always surfaced as the retryable 500 store error, and when the failure
hits the FIRST store call of the handler the cache-side state is exactly
unchanged; but a failure at a later call leaves the earlier calls applied
(no rollback), so only the first-call case gives the claimed
no-partial-mutation guarantee. -/
theorem C2_partial_mutation_on_fault :
    (∀ p v st, (addItem p v (some 0) st).2 = st) ∧
    (∀ p v st, (updateItem p v (some 0) st).2 = st) ∧
    (∀ items st, (bulkUpdate items (some 0) st).2 = st) ∧
    (∀ st, (clearCart (some 0) st).2 = st) ∧
    (∀ p v st k, k < 3 → (p = "" || !JSVal.isNumber v || JSVal.jsLe0 v) = false →
      (addItem p v (some k) st).1 = .storeError) ∧
    (∀ p v st k, k < 3 → p ≠ "" →
      (!JSVal.isNullish v && !JSVal.isNumber v) = false →
      (updateItem p v (some k) st).1 = .storeError) ∧
    (∀ items st k, k < 3 → (bulkUpdate items (some k) st).1 = .storeError) ∧
    (∀ st k, k < 3 → (clearCart (some k) st).1 = .storeError) := by
  refine ⟨?_, ?_, ?_, ?_, ?_, ?_, ?_, ?_⟩
  · intro p v st
    by_cases hval : (p = "" || !JSVal.isNumber v || JSVal.jsLe0 v) = true
    · simp [addItem, hval]
    · rw [Bool.not_eq_true] at hval
      simp [addItem, hval, runOps]
  · intro p v st
    by_cases hp : p = ""
    · simp [updateItem, hp]
    · by_cases hv : (!JSVal.isNullish v && !JSVal.isNumber v) = true
      · simp [updateItem, hp, hv]
      · rw [Bool.not_eq_true] at hv
        simp [updateItem, hp, hv, runOps]
  · intro items st
    simp [bulkUpdate, runOps]
  · intro st
    simp [clearCart, runOps]
  · intro p v st k hk hval
    have hr := runOps_fault_of_lt [.hIncrBy p v.toRat, .expire, .sAdd] k st
      (by simpa using hk)
    simp [addItem, hval, hr]
  · intro p v st k hk hp hv
    have hr : ∀ op, (runOps [op, .expire, .sAdd] (some k) st).1 = false :=
      fun op => runOps_fault_of_lt _ k st (by simpa using hk)
    simp [updateItem, hp, hv, hr]
  · intro items st k hk
    have hr : ∀ cmds, (runOps [.pipe cmds, .expire, .sAdd] (some k) st).1 = false :=
      fun cmds => runOps_fault_of_lt _ k st (by simpa using hk)
    simp [bulkUpdate, hr]
  · intro st k hk
    have hr := runOps_fault_of_lt [.delKey, .pgDelCart, .sAdd] k st
      (by simpa using hk)
    simp [clearCart, hr]

/-- C2 witness: `AddItem("a", 1)` with the first store call failing leaves
the empty initial state untouched; with the second store call failing the
call still reports the retryable store error. -/
theorem C2_partial_mutation_on_fault_witness :
    (addItem "a" (JSVal.num 1) (some 0) ⟨[], none, false, none⟩).2
      = ⟨[], none, false, none⟩ ∧
    (addItem "a" (JSVal.num 1) (some 1) ⟨[], none, false, none⟩).1
      = .storeError :=
  ⟨C2_partial_mutation_on_fault.1 "a" (JSVal.num 1) ⟨[], none, false, none⟩,
   C2_partial_mutation_on_fault.2.2.2.2.1 "a" (JSVal.num 1)
     ⟨[], none, false, none⟩ 1 (by decide) (by decide)⟩

/-- C7 (amended). Every cart mutation preserves strict positivity of all
stored quantities — `AddItem` only ever adds a validated-positive
increment to a nonnegative current value, `UpdateItem`/`BulkUpdate` store
only values that passed the `> 0` branch and delete otherwise, `ClearCart`
only deletes, and the `GetCart` restore preserves it when the durable rows
are positive. (Integrality, the other half of the original claim, is NOT
preserved — see the counterexample.) -/
theorem C7_positivity_preserved :
    (∀ p v fault st, posInv st.cart →
      posInv ((addItem p v fault st).2).cart) ∧
    (∀ p v fault st, posInv st.cart →
      posInv ((updateItem p v fault st).2).cart) ∧
    (∀ items fault st, posInv st.cart →
      posInv ((bulkUpdate items fault st).2).cart) ∧
    (∀ fault st, posInv st.cart →
      posInv ((clearCart fault st).2).cart) ∧
    (∀ st, posInv st.cart → (∀ e ∈ getCartRows st, 0 < e.2) →
      posInv ((getCart st).2).cart) := by
  refine ⟨?_, ?_, ?_, ?_, ?_⟩
  · intro p v fault st h
    by_cases hval : (p = "" || !JSVal.isNumber v || JSVal.jsLe0 v) = true
    · simpa [addItem, hval] using h
    · rw [Bool.not_eq_true] at hval
      have hpos : (0:Rat) < v.toRat := by
        cases v with
        | undef => simp [JSVal.isNumber] at hval
        | null => simp [JSVal.isNumber] at hval
        | num q =>
          have hle : JSVal.jsLe0 (JSVal.num q) = false :=
            (Bool.or_eq_false_iff.mp hval).2
          simp only [JSVal.jsLe0, decide_eq_false_iff_not, not_le] at hle
          simpa [JSVal.toRat] using hle
      have hops : ∀ op ∈ [Op.hIncrBy p v.toRat, Op.expire, Op.sAdd], opPos op := by
        intro op hop
        rcases List.mem_cons.mp hop with rfl | hop'
        · exact hpos
        · rcases List.mem_cons.mp hop' with rfl | hop''
          · trivial
          · rcases List.mem_singleton.mp hop'' with rfl
            trivial
      have hrun := runOps_posInv [Op.hIncrBy p v.toRat, Op.expire, Op.sAdd]
        fault st hops h
      by_cases hb : (runOps [Op.hIncrBy p v.toRat, Op.expire, Op.sAdd] fault st).1
      · simpa [addItem, hval, hb] using hrun
      · rw [Bool.not_eq_true] at hb
        simpa [addItem, hval, hb] using hrun
  · intro p v fault st h
    by_cases hp : p = ""
    · simpa [updateItem, hp] using h
    · by_cases hv : (!JSVal.isNullish v && !JSVal.isNumber v) = true
      · simpa [updateItem, hp, hv] using h
      · rw [Bool.not_eq_true] at hv
        by_cases hbr : (JSVal.isNullish v || JSVal.jsLe0 v) = true
        · have hops : ∀ o ∈ [Op.hDel p, Op.expire, Op.sAdd], opPos o := by
            intro o ho
            rcases List.mem_cons.mp ho with rfl | ho'
            · trivial
            · rcases List.mem_cons.mp ho' with rfl | ho''
              · trivial
              · rcases List.mem_singleton.mp ho'' with rfl
                trivial
          have hrun := runOps_posInv [Op.hDel p, Op.expire, Op.sAdd] fault st hops h
          by_cases hb : (runOps [Op.hDel p, Op.expire, Op.sAdd] fault st).1
          · simpa [updateItem, hp, hv, hbr, hb] using hrun
          · rw [Bool.not_eq_true] at hb
            simpa [updateItem, hp, hv, hbr, hb] using hrun
        · rw [Bool.not_eq_true] at hbr
          have hpos : (0:Rat) < v.toRat := by
            cases v with
            | undef => simp [JSVal.isNullish] at hbr
            | null => simp [JSVal.isNullish] at hbr
            | num q =>
              have hle : JSVal.jsLe0 (JSVal.num q) = false :=
                (Bool.or_eq_false_iff.mp hbr).2
              simp only [JSVal.jsLe0, decide_eq_false_iff_not, not_le] at hle
              simpa [JSVal.toRat] using hle
          have hops : ∀ o ∈ [Op.hSet p v.toRat, Op.expire, Op.sAdd], opPos o := by
            intro o ho
            rcases List.mem_cons.mp ho with rfl | ho'
            · exact hpos
            · rcases List.mem_cons.mp ho' with rfl | ho''
              · trivial
              · rcases List.mem_singleton.mp ho'' with rfl
                trivial
          have hrun := runOps_posInv [Op.hSet p v.toRat, Op.expire, Op.sAdd]
            fault st hops h
          by_cases hb : (runOps [Op.hSet p v.toRat, Op.expire, Op.sAdd] fault st).1
          · simpa [updateItem, hp, hv, hbr, hb] using hrun
          · rw [Bool.not_eq_true] at hb
            simpa [updateItem, hp, hv, hbr, hb] using hrun
  · intro items fault st h
    set cmds : List PipeCmd := items.map (fun it =>
      if it.2.jsGt0 then PipeCmd.pset it.1 it.2.toRat else PipeCmd.pdel it.1)
      with hcmds
    have hcpos : ∀ cmd ∈ cmds, cmdPos cmd := by
      intro cmd hcmd
      rw [hcmds] at hcmd
      rcases List.mem_map.mp hcmd with ⟨it, _, rfl⟩
      by_cases hgt : it.2.jsGt0 = true
      · cases hit : it.2 with
        | undef => rw [hit] at hgt; simp [JSVal.jsGt0] at hgt
        | null => rw [hit] at hgt; simp [JSVal.jsGt0] at hgt
        | num q =>
          rw [hit] at hgt
          simp only [JSVal.jsGt0, decide_eq_true_eq] at hgt
          simp [hit, JSVal.jsGt0, hgt, cmdPos, JSVal.toRat]
      · rw [Bool.not_eq_true] at hgt
        simp [hgt, cmdPos]
    have hops : ∀ o ∈ [Op.pipe cmds, Op.expire, Op.sAdd], opPos o := by
      intro o ho
      rcases List.mem_cons.mp ho with rfl | ho'
      · exact hcpos
      · rcases List.mem_cons.mp ho' with rfl | ho''
        · trivial
        · rcases List.mem_singleton.mp ho'' with rfl
          trivial
    have hrun := runOps_posInv [Op.pipe cmds, Op.expire, Op.sAdd] fault st hops h
    by_cases hb : (runOps [Op.pipe cmds, Op.expire, Op.sAdd] fault st).1
    · simpa [bulkUpdate, ← hcmds, hb] using hrun
    · rw [Bool.not_eq_true] at hb
      simpa [bulkUpdate, ← hcmds, hb] using hrun
  · intro fault st h
    have hops : ∀ o ∈ [Op.delKey, Op.pgDelCart, Op.sAdd], opPos o := by
      intro o ho
      rcases List.mem_cons.mp ho with rfl | ho'
      · trivial
      · rcases List.mem_cons.mp ho' with rfl | ho''
        · trivial
        · rcases List.mem_singleton.mp ho'' with rfl
          trivial
    have hrun := runOps_posInv [Op.delKey, Op.pgDelCart, Op.sAdd] fault st hops h
    by_cases hb : (runOps [Op.delKey, Op.pgDelCart, Op.sAdd] fault st).1
    · simpa [clearCart, hb] using hrun
    · rw [Bool.not_eq_true] at hb
      simpa [clearCart, hb] using hrun
  · intro st h hrows
    by_cases hc : st.cart.isEmpty = true
    · by_cases hr : (getCartRows st).isEmpty = true
      · simpa [getCart, hc, hr] using h
      · rw [Bool.not_eq_true] at hr
        have := foldl_aset_posInv (getCartRows st) st.cart hrows h
        simpa [getCart, hc, hr] using this
    · rw [Bool.not_eq_true] at hc
      simpa [getCart, hc] using h

/-- C7 witness: positivity after an `AddItem` on an empty cart, via the
invariant theorem. -/
theorem C7_positivity_preserved_witness :
    posInv ((addItem "a" (JSVal.num 2) none ⟨[], none, false, none⟩).2).cart :=
  C7_positivity_preserved.1 "a" (JSVal.num 2) none ⟨[], none, false, none⟩
    (fun e he => by simp at he)

/-- C9 (amended). `AddItem` behaves as claimed only for integer
quantities: if `p` is truthy and `q` is a positive INTEGER (and the
currently stored value, default 0, is an integer), the call increments the
stored quantity by `q`, sets the 24h TTL, and marks the user dirty; a
missing `p`, a non-number `q`, or `q ≤ 0` is rejected as `InvalidInput`
with no store access; but a positive non-integer `q` passes validation and
then fails at `HINCRBY` with a store error, changing nothing. -/
theorem C9_addItem_contract :
    (∀ p q st, p ≠ "" → (0:Rat) < q → q.den = 1 →
        ((alookup st.cart p).getD 0).den = 1 →
      addItem p (JSVal.num q) none st
        = (.ok,
           { cart := aset st.cart p ((alookup st.cart p).getD 0 + q),
             ttl := some CART_TTL, dirtyMe := true, pgCart := st.pgCart }) ∧
      alookup (addItem p (JSVal.num q) none st).2.cart p
        = some ((alookup st.cart p).getD 0 + q)) ∧
    (∀ p v fault st, p = "" ∨ v.isNumber = false ∨ v.jsLe0 = true →
      addItem p v fault st = (.invalidInput, st)) ∧
    (∀ p q st, p ≠ "" → (0:Rat) < q → q.den ≠ 1 →
      addItem p (JSVal.num q) none st = (.storeError, st)) := by
  refine ⟨?_, ?_, ?_⟩
  · intro p q st hp hq hden hcden
    have hval : (p = "" || !JSVal.isNumber (JSVal.num q)
        || JSVal.jsLe0 (JSVal.num q)) = false := by
      simp [JSVal.isNumber, JSVal.jsLe0, hp, not_le, hq]
    have hmain :
        addItem p (JSVal.num q) none st
          = (.ok,
             { cart := aset st.cart p ((alookup st.cart p).getD 0 + q),
               ttl := some CART_TTL, dirtyMe := true, pgCart := st.pgCart }) := by
      simp [addItem, hval, runOps, applyOp, JSVal.toRat, hden, hcden,
        aset_isEmpty_false]
    exact ⟨hmain, by rw [hmain]; exact alookup_aset_self _ _ _⟩
  · intro p v fault st hbad
    rcases hbad with hp | hv | hv
    · simp [addItem, hp]
    · simp [addItem, hv]
    · simp [addItem, hv]
  · intro p q st hp hq hden
    have hval : (p = "" || !JSVal.isNumber (JSVal.num q)
        || JSVal.jsLe0 (JSVal.num q)) = false := by
      simp [JSVal.isNumber, JSVal.jsLe0, hp, not_le, hq]
    simp [addItem, hval, runOps, applyOp, JSVal.toRat, hden]

/-- C9 witness: the three contract cases at concrete inputs — a valid
integer add, a rejected empty product id, and a positive non-integer
quantity that fails at the store. -/
theorem C9_addItem_contract_witness :
    (addItem "a" (JSVal.num 2) none ⟨[], none, false, none⟩).1 = .ok ∧
    alookup (addItem "a" (JSVal.num 2) none ⟨[], none, false, none⟩).2.cart "a"
      = some ((alookup ([] : Cart) "a").getD 0 + 2) ∧
    addItem "" (JSVal.num 2) none ⟨[], none, false, none⟩
      = (.invalidInput, ⟨[], none, false, none⟩) ∧
    addItem "a" (JSVal.num (mkRat 5 2)) none ⟨[], none, false, none⟩
      = (.storeError, ⟨[], none, false, none⟩) := by
  refine ⟨?_, ?_, ?_, ?_⟩
  · rw [(C9_addItem_contract.1 "a" 2 ⟨[], none, false, none⟩
      (by decide) (by decide) (by decide) (by decide)).1]
  · exact (C9_addItem_contract.1 "a" 2 ⟨[], none, false, none⟩
      (by decide) (by decide) (by decide) (by decide)).2
  · exact C9_addItem_contract.2.1 "" (JSVal.num 2) none ⟨[], none, false, none⟩
      (Or.inl rfl)
  · exact C9_addItem_contract.2.2 "a" (mkRat 5 2) ⟨[], none, false, none⟩
      (by decide) (by decide) (by decide)

/-- C10. `POST /update-bulk` validates nothing per item: every submitted
item whose quantity is not strictly greater than 0 under JS comparison
(missing, `null`, zero, negative) is turned into an `HDEL` that silently
removes the product's field (provided no other entry for the same product
in the list re-adds it), the call still answers 200, marks the user dirty,
and refreshes the TTL whenever the resulting hash is non-empty (an
emptied hash loses its key, hence its TTL). -/
theorem C10_bulk_no_validation (items : List (String × JSVal)) (st : UserState)
    (hinv : st.cart.isEmpty = true → st.ttl = none) :
    (bulkUpdate items none st).1 = .ok ∧
    (bulkUpdate items none st).2.dirtyMe = true ∧
    ((bulkUpdate items none st).2.cart.isEmpty = false →
      (bulkUpdate items none st).2.ttl = some CART_TTL) ∧
    ((bulkUpdate items none st).2.cart.isEmpty = true →
      (bulkUpdate items none st).2.ttl = none) ∧
    (∀ p v, (p, v) ∈ items → v.jsGt0 = false →
      (∀ w, (p, w) ∈ items → w.jsGt0 = false) →
      alookup (bulkUpdate items none st).2.cart p = none) := by
  set cmds : List PipeCmd := items.map (fun it =>
    if it.2.jsGt0 then PipeCmd.pset it.1 it.2.toRat else PipeCmd.pdel it.1)
    with hcmds
  set s1 : UserState := cmds.foldl applyPipeCmd st with hs1
  have hmain :
      bulkUpdate items none st
        = (.ok, { (if s1.cart.isEmpty then s1
            else { s1 with ttl := some CART_TTL }) with dirtyMe := true }) := by
    simp [bulkUpdate, ← hcmds, runOps, applyOp, ← hs1]
  have hcart :
      (bulkUpdate items none st).2.cart = s1.cart := by
    rw [hmain]
    by_cases hc : s1.cart.isEmpty = true
    · simp [hc]
    · rw [Bool.not_eq_true] at hc
      simp [hc]
  refine ⟨by rw [hmain], by rw [hmain], ?_, ?_, ?_⟩
  · intro hne
    rw [hcart] at hne
    rw [hmain]
    simp [hne]
  · intro hemp
    rw [hcart] at hemp
    rw [hmain]
    simp only [hemp, if_true]
    exact foldl_pipe_ttl cmds st hinv hemp
  · intro p v hmem hv hall
    rw [hcart, hs1]
    apply foldl_pipe_lookup_none
    · intro w hw
      rw [hcmds] at hw
      rcases List.mem_map.mp hw with ⟨it, hit, heq⟩
      by_cases hgt : it.2.jsGt0 = true
      · rw [if_pos hgt] at heq
        cases heq
        exact absurd hgt (by
          rw [hall it.2 (by simpa using hit)]
          simp)
      · rw [Bool.not_eq_true] at hgt
        rw [hgt] at heq
        simp at heq
    · refine Or.inl ?_
      rw [hcmds]
      have : PipeCmd.pdel p
          = (fun it => if it.2.jsGt0 = true then PipeCmd.pset it.1 it.2.toRat
              else PipeCmd.pdel it.1) (p, v) := by
        simp [hv]
      rw [this]
      exact List.mem_map_of_mem _ hmem

/-- C10 witness: bulk update with a `null`-quantity item `a` and a valid
item `b` — `a` is silently deleted, the call answers 200 and marks dirty. -/
theorem C10_bulk_no_validation_witness :
    (bulkUpdate [("a", JSVal.null), ("b", JSVal.num 2)] none
      ⟨[("a", 5)], some 3, false, none⟩).1 = .ok ∧
    (bulkUpdate [("a", JSVal.null), ("b", JSVal.num 2)] none
      ⟨[("a", 5)], some 3, false, none⟩).2.dirtyMe = true ∧
    alookup (bulkUpdate [("a", JSVal.null), ("b", JSVal.num 2)] none
      ⟨[("a", 5)], some 3, false, none⟩).2.cart "a" = none := by
  have h := C10_bulk_no_validation [("a", JSVal.null), ("b", JSVal.num 2)]
    ⟨[("a", 5)], some 3, false, none⟩ (by intro hc; simp at hc)
  refine ⟨h.1, h.2.1, ?_⟩
  refine h.2.2.2.2 "a" JSVal.null (by simp) (by simp [JSVal.jsGt0]) ?_
  intro w hw
  rcases List.mem_cons.mp hw with h1 | h1
  · cases h1
    rfl
  · rcases List.mem_singleton.mp h1 with h2
    simp at h1

end LaboraCart
